import Mathlib

/-!
Verification of the apiserver-kit resource-registration and builder core.

The Go source is shallowly embedded:

* Go `map[string]V` values are modelled as association lists
  `List (String × V)` with `mapLookup` / `mapWrite` as read / write.
* The two-level versioned storage map `map[string]map[string]rest.Storage`
  is modelled with an explicit heap (`MHeap`) of inner maps addressed by
  `Nat` references, so that aliasing and in-place mutation of inner maps
  is observable: an outer map is a `List (String × Nat)` of references
  into the heap.  `mergeVersionedResourcesStorageMap` is the direct
  transcription of the Go function over this state.
* Panics are modelled as `Except String` results.
* The `rest` package's strategy implementation (`DefaultStrategy`,
  `PrepareForUpdaterStrategy`, `Unwrap`) is not present in the source
  tree (only its unit tests and callers are); those definitions are
  modelled from the specification, as marked in their doc comments.
-/

namespace ApiserverKit

/-- Lookup in a Go-style string map modelled as an association list:
the value of the first entry whose key matches. -/
def mapLookup {V : Type} (m : List (String × V)) (k : String) : Option V :=
  match m.find? (fun p => p.1 == k) with
  | some p => some p.2
  | none => none

/-- Write (`m[k] = v`) in a Go-style string map modelled as an association
list: replace the existing entry for `k`, or append a new one. -/
def mapWrite {V : Type} (m : List (String × V)) (k : String) (v : V) :
    List (String × V) :=
  if m.any (fun p => p.1 == k) then
    m.map (fun p => if p.1 == k then (k, v) else p)
  else
    m ++ [(k, v)]

/-- Keys of an association list are pairwise distinct (the invariant of a
Go map). -/
abbrev NodupKeys {V : Type} (m : List (String × V)) : Prop :=
  m.Pairwise (fun p q => p.1 ≠ q.1)

/-- First-some choice on options; `optOr x y` is `x` when `x` is `some`,
otherwise `y` (the shape of "the later map-write wins" results). -/
def optOr {V : Type} (x y : Option V) : Option V :=
  match x with
  | some v => some v
  | none => y

/-- Sequential Go-map writes: write every entry of `entries` (in order) into
the accumulator map `m`.  This is the inner loop
`for resource, store := range storeMap { c[version][resource] = store }`
of `mergeVersionedResourcesStorageMap`, at the level of one inner map. -/
def writeAll {V : Type} : List (String × V) → List (String × V) →
    List (String × V)
  | m, [] => m
  | m, p :: rest => writeAll (mapWrite m p.1 p.2) rest

/-- Heap of Go inner maps (`map[string]V` values) addressed by `Nat`
references; `size` is the allocation frontier.  Outer versioned storage
maps hold references into this heap, which makes sharing and in-place
mutation of inner maps observable in the embedding. -/
structure MHeap (V : Type) where
  cell : Nat → List (String × V)
  size : Nat

/-- Read the inner map at address `a`. -/
def heapGet {V : Type} (h : MHeap V) (a : Nat) : List (String × V) := h.cell a

/-- Overwrite the inner map at address `a` (a Go write through a map
reference). -/
def heapSet {V : Type} (h : MHeap V) (a : Nat) (m : List (String × V)) :
    MHeap V :=
  { h with cell := fun x => if x = a then m else h.cell x }

/-- Allocate a fresh, empty inner map (`map[string]rest.Storage{}`),
returning the grown heap and the new reference. -/
def heapAlloc {V : Type} (h : MHeap V) : MHeap V × Nat :=
  ({ cell := fun x => if x = h.size then [] else h.cell x, size := h.size + 1 },
   h.size)

/-- Copy all entries of `entries` into the inner map at `cAddr`, one map
write at a time: the inner `for resource, store := range storeMap` loop of
`mergeVersionedResourcesStorageMap`. -/
def copyInner {V : Type} (h : MHeap V) (cAddr : Nat) :
    List (String × V) → MHeap V
  | [] => h
  | p :: rest =>
      copyInner (heapSet h cAddr (mapWrite (heapGet h cAddr) p.1 p.2)) cAddr rest

/-- Copy one versioned storage map `src` into the accumulator `c` (the
outer `for version, storeMap := range src` loop of
`mergeVersionedResourcesStorageMap`): ensure `c[version]` exists
(allocating a fresh empty inner map when absent, never aliasing the
source's inner map) and copy the entries of the source inner map into it. -/
def copyOuter {V : Type} (h : MHeap V) (c : List (String × Nat)) :
    List (String × Nat) → MHeap V × List (String × Nat)
  | [] => (h, c)
  | (ver, srcAddr) :: rest =>
      match mapLookup c ver with
      | some cAddr =>
          copyOuter (copyInner h cAddr (heapGet h srcAddr)) c rest
      | none =>
          copyOuter
            (copyInner (heapAlloc h).1 (heapAlloc h).2
              (heapGet (heapAlloc h).1 srcAddr))
            (c ++ [(ver, (heapAlloc h).2)]) rest

/-- The Go function `mergeVersionedResourcesStorageMap(a, b)`: build a
fresh outer map `c`, copy all of `a`'s entries into it, then all of `b`'s.
The heap threads the mutation of the (freshly allocated) inner maps. -/
def mergeVersionedResourcesStorageMap {V : Type} (h : MHeap V)
    (a b : List (String × Nat)) : MHeap V × List (String × Nat) :=
  let r := copyOuter h ([] : List (String × Nat)) a
  copyOuter r.1 r.2 b

/-- Observation of a two-level versioned storage map: the adapter stored
under `(version, resource)`, read through the heap. -/
def lookup2 {V : Type} (h : MHeap V) (m : List (String × Nat))
    (ver res : String) : Option V :=
  match mapLookup m ver with
  | some addr => mapLookup (heapGet h addr) res
  | none => none

/-- Well-formedness of an input storage map w.r.t. the heap: it is a Go
map (distinct version keys), every inner-map reference is allocated, and
every referenced inner map is a Go map (distinct resource keys). -/
structure SrcWF {V : Type} (h : MHeap V) (m : List (String × Nat)) : Prop where
  nodup : NodupKeys m
  addrLt : ∀ p ∈ m, p.2 < h.size
  cellNodup : ∀ p ∈ m, NodupKeys (h.cell p.2)

/-- Invariant of the merge accumulator `c` relative to the pristine heap
`h0`: the current heap only grew, pre-existing cells are untouched, and
`c` only references fresh cells, one per version key. -/
structure PassInv {V : Type} (h0 h : MHeap V) (c : List (String × Nat)) :
    Prop where
  size_le : h0.size ≤ h.size
  frozen : ∀ x, x < h0.size → h.cell x = h0.cell x
  addrGe : ∀ p ∈ c, h0.size ≤ p.2
  addrLt : ∀ p ∈ c, p.2 < h.size
  keyNodup : NodupKeys c
  addrNodup : c.Pairwise (fun p q => p.2 ≠ q.2)

/-- Disjointness of the `(version, resource)` key sets of two versioned
storage maps, read through the heap. -/
abbrev KeyDisjoint {V : Type} (h : MHeap V) (a b : List (String × Nat)) : Prop :=
  ∀ p ∈ a, ∀ q ∈ b, p.1 = q.1 →
    ∀ x ∈ heapGet h p.2, ∀ y ∈ heapGet h q.2, x.1 ≠ y.1

/-- A Kubernetes group-version pair (`schema.GroupVersion`), as used by the
builder and by `Resource` registrations. -/
structure GroupVersion where
  group : String
  version : String
deriving DecidableEq

/-- The group-consistency scan at the top of `Builder.Execute`: walk the
accumulated group-versions with a `groupName` accumulator that starts
empty; a group-version whose group differs from a non-empty accumulator
panics (modelled as `Except.error`), otherwise the accumulator becomes the
current group. -/
def builderGroupScanAux (groupName : String) :
    List GroupVersion → Except String String
  | [] => .ok groupName
  | gv :: rest =>
      if groupName ≠ "" ∧ groupName ≠ gv.group then
        .error "all exposed resources expected to have the same group"
      else builderGroupScanAux gv.group rest

/-- The scan over all group-versions accumulated in one builder, starting
from the empty sentinel, as `Builder.Execute` does. -/
def builderGroupScan (gvs : List GroupVersion) : Except String String :=
  builderGroupScanAux "" gvs

/-- The per-registration check inside `Resource`'s `apiGroupFn`: every
supplied group-version's group must equal the template's derived group,
else the registration panics (modelled as `Except.error`). -/
def resourceGroupCheck (grGroup : String) :
    List GroupVersion → Except String Unit
  | [] => .ok ()
  | gv :: rest =>
      if gv.group ≠ grGroup then .error "unexpected group mismatch"
      else resourceGroupCheck grGroup rest

/-- A parsed component version, reduced to the (major, minor, patch)
components relevant to the mapping (`k8s.io/apimachinery`'s
`version.Version`). -/
structure KVersion where
  major : Nat
  minor : Nat
  patch : Nat
deriving DecidableEq

/-- `Version.WithMinor`: a copy of the version with the minor component
replaced, keeping major and patch. -/
def withMinor (v : KVersion) (m : Nat) : KVersion := { v with minor := m }

/-- `Version.OffsetMinor` of `k8s.io/apimachinery`'s version package: add
a (possibly negative) minor offset; negative offsets larger than the
current minor clamp the result's minor at zero (the unsigned-subtraction
guard in the Go code). -/
def offsetMinor (v : KVersion) (offset : Int) : KVersion :=
  if 0 ≤ offset then withMinor v (v.minor + offset.toNat)
  else withMinor v
    (if (-offset).toNat < v.minor then v.minor - (-offset).toNat else 0)

/-- `Version.GreaterThan`: lexicographic comparison of (major, minor,
patch). -/
def greaterThan (v w : KVersion) : Bool :=
  if v.major ≠ w.major then decide (w.major < v.major)
  else if v.minor ≠ w.minor then decide (w.minor < v.minor)
  else decide (w.patch < v.patch)

/-- The emulation-version mapping `versionToKubeVersion` registered by
`Builder.Execute`, parameterised by the dependent kube component's current
binary version `kubeVer` (the external constant
`DefaultKubeBinaryVersion`): only defined for major 1; "1.2" maps to
`kubeVer` itself, other minors are offset by `minor - 2`, and a mapped
version greater than `kubeVer` is replaced by `kubeVer`. -/
def versionToKubeVersion (kubeVer ver : KVersion) : Option KVersion :=
  if ver.major ≠ 1 then none
  else if greaterThan (offsetMinor kubeVer ((ver.minor : Int) - 2)) kubeVer
    then some kubeVer
    else some (offsetMinor kubeVer ((ver.minor : Int) - 2))

/-- A resource object as seen by the status-split machinery: an opaque
spec payload and an opaque status payload. -/
structure Obj (S T : Type) where
  spec : S
  status : T
deriving DecidableEq

/-- `CopyStatusTo` of `resource.ObjectWithStatusSubResource`: copy the
receiver's status fields onto the target, leaving the target's other
fields unchanged. -/
def copyStatusTo {S T : Type} (receiver target : Obj S T) : Obj S T :=
  { target with status := receiver.status }

/-- `DeepCopyInto` of `resource.ObjectWithDeepCopy`: the receiver's data
replaces the target wholesale. -/
def deepCopyInto {S T : Type} (receiver _target : Obj S T) : Obj S T :=
  receiver

/-- Modelled from the spec: the optional capability references of one
resource type, resolved once at registration time (the capability
interfaces of the `rest` package, whose implementation file is absent
from the source tree — only its unit tests and callers are present).
`Ctx` is the request context type, `α` the resource-object type, `ε` the
validation-error type; an absent capability is `none`. -/
structure Capabilities (Ctx α ε : Type) where
  nameGenerator : Option (String → String)
  prepareForCreate : Option (Ctx → α → α)
  prepareForUpdate : Option (Ctx → α → α → α)
  validate : Option (Ctx → α → List ε)
  validateUpdate : Option (Ctx → α → α → List ε)
  canonicalize : Option (α → α)
  allowCreateOnUpdate : Option Bool
  allowUnconditionalUpdate : Option Bool
  copyStatusTo : Option (α → α → α)

/-- The empty capability set: a resource type implementing none of the
optional interfaces. -/
def noCapabilities (Ctx α ε : Type) : Capabilities Ctx α ε :=
  ⟨none, none, none, none, none, none, none, none, none⟩

/-- The capability set of a status-capable resource kind of type
`Obj S T` implementing only `ObjectWithStatusSubResource`. -/
def statusCapabilities (Ctx S T ε : Type) : Capabilities Ctx (Obj S T) ε :=
  { noCapabilities Ctx (Obj S T) ε with
      copyStatusTo := some (fun receiver target => copyStatusTo receiver target) }

/-- Modelled from the spec: `DefaultStrategy.GenerateName` delegates to
the NameGenerator capability when present, otherwise returns the base
unchanged (no suffixing). -/
def DefaultStrategy.generateName {Ctx α ε : Type} (caps : Capabilities Ctx α ε)
    (base : String) : String :=
  match caps.nameGenerator with
  | some f => f base
  | none => base

/-- Modelled from the spec: `DefaultStrategy.PrepareForCreate` is a no-op
unless the PrepareForCreater capability is present. -/
def DefaultStrategy.prepareForCreate {Ctx α ε : Type}
    (caps : Capabilities Ctx α ε) (ctx : Ctx) (obj : α) : α :=
  match caps.prepareForCreate with
  | some f => f ctx obj
  | none => obj

/-- Modelled from the spec and the unit test: `DefaultStrategy.PrepareForUpdate`
first copies the stored object's status onto the candidate when the kind
is status-capable (so a write through the main endpoint cannot change
status), then runs the PrepareForUpdater capability when present. -/
def DefaultStrategy.prepareForUpdate {Ctx α ε : Type}
    (caps : Capabilities Ctx α ε) (ctx : Ctx) (obj old : α) : α :=
  let obj1 :=
    match caps.copyStatusTo with
    | some f => f old obj
    | none => obj
  match caps.prepareForUpdate with
  | some f => f ctx obj1 old
  | none => obj1

/-- Modelled from the spec: `DefaultStrategy.Validate` returns the empty
error list when the Validater capability is absent. -/
def DefaultStrategy.validate {Ctx α ε : Type} (caps : Capabilities Ctx α ε)
    (ctx : Ctx) (obj : α) : List ε :=
  match caps.validate with
  | some f => f ctx obj
  | none => []

/-- Modelled from the spec: `DefaultStrategy.ValidateUpdate` returns the
empty error list when the ValidateUpdater capability is absent. -/
def DefaultStrategy.validateUpdate {Ctx α ε : Type}
    (caps : Capabilities Ctx α ε) (ctx : Ctx) (obj old : α) : List ε :=
  match caps.validateUpdate with
  | some f => f ctx obj old
  | none => []

/-- Modelled from the spec: `DefaultStrategy.Canonicalize` is a no-op
unless the Canonicalizer capability is present. -/
def DefaultStrategy.canonicalize {Ctx α ε : Type}
    (caps : Capabilities Ctx α ε) (obj : α) : α :=
  match caps.canonicalize with
  | some f => f obj
  | none => obj

/-- Modelled from the spec: `DefaultStrategy.AllowCreateOnUpdate` defaults
to false unless the capability is present. -/
def DefaultStrategy.allowCreateOnUpdate {Ctx α ε : Type}
    (caps : Capabilities Ctx α ε) : Bool :=
  match caps.allowCreateOnUpdate with
  | some b => b
  | none => false

/-- Modelled from the spec: `DefaultStrategy.AllowUnconditionalUpdate`
defaults to false unless the capability is present. -/
def DefaultStrategy.allowUnconditionalUpdate {Ctx α ε : Type}
    (caps : Capabilities Ctx α ε) : Bool :=
  match caps.allowUnconditionalUpdate with
  | some b => b
  | none => false

/-- Modelled from the spec: the `PrepareForUpdaterStrategy` decorator of
the `rest` package (implementation absent from the source tree): an
optional wrapped inner update strategy (its PrepareForUpdate step, which
mutates the candidate object) and an optional `OverrideFn` (which may
mutate both the candidate and the stored object). -/
structure PrepareForUpdaterStrategy (Ctx α : Type) where
  restUpdateStrategy : Option (Ctx → α → α → α)
  overrideFn : Option (Ctx → α → α → α × α)

/-- Modelled from the spec and the unit tests:
`PrepareForUpdaterStrategy.PrepareForUpdate` runs `OverrideFn` when
non-nil (on exactly the context, candidate and stored object passed in),
then delegates to the wrapped strategy's PrepareForUpdate when present;
it returns the final (candidate, stored) pair and has no failure path. -/
def PrepareForUpdaterStrategy.prepareForUpdate {Ctx α : Type}
    (s : PrepareForUpdaterStrategy Ctx α) (ctx : Ctx) (obj old : α) :
    α × α :=
  let p :=
    match s.overrideFn with
    | some f => f ctx obj old
    | none => (obj, old)
  match s.restUpdateStrategy with
  | some g => (g ctx p.1 p.2, p.2)
  | none => p

/-- The `statusPrepareForUpdate` closure that `Resource` installs on the
status entry (src/apiserver/resource.go): the candidate's status is
copied onto the stored object, and the stored object — now holding the
new status and the previous spec — is deep-copied back over the
candidate.  Returns the updated (candidate, stored) pair. -/
def statusPrepareForUpdate {S T : Type} (obj old : Obj S T) :
    Obj S T × Obj S T :=
  let old1 := copyStatusTo obj old
  let obj1 := deepCopyInto old1 obj
  (obj1, old1)

/-- The update strategy installed on the `<resource>/status` storage
entry: `PrepareForUpdaterStrategy` wrapping the primary adapter's default
strategy, with the status override as `OverrideFn`. -/
def statusUpdateStrategy (Ctx S T ε : Type) :
    PrepareForUpdaterStrategy Ctx (Obj S T) :=
  { restUpdateStrategy := some (fun ctx obj old =>
      DefaultStrategy.prepareForUpdate (statusCapabilities Ctx S T ε) ctx obj old)
    overrideFn := some (fun _ obj old => statusPrepareForUpdate obj old) }

/-- A (group, resource) identity (`schema.GroupResource`). -/
structure GroupResource where
  group : String
  resource : String
deriving DecidableEq

/-- An update strategy as a syntactic shape: either a base strategy (an
opaque value of type `σ`) or a `PrepareForUpdaterStrategy` wrapping of an
inner strategy, with or without an override function installed. -/
inductive UpdStrat (σ : Type) where
  | base (s : σ)
  | prepareForUpdaterWrap (inner : UpdStrat σ) (hasOverrideFn : Bool)
deriving DecidableEq

/-- The fields of `genericregistry.Store` that `NewStore` configures and
that the status-entry value copy duplicates.  `π` is the type of the
reference to the underlying physical store (shared by a shallow struct
copy), `σ` an opaque strategy/function identity type. -/
structure RegistryStore (π σ : Type) where
  newFunc : String
  newListFunc : String
  predicateFunc : σ
  defaultQualifiedResource : GroupResource
  singularQualifiedResource : GroupResource
  tableConvertor : σ
  createStrategy : σ
  updateStrategy : UpdStrat σ
  deleteStrategy : σ
  storage : π
deriving DecidableEq

/-- A storage entry as returned by `NewStore`: the registry store itself,
or the store wrapped in the short-names decorator
(`storeWithShortNames`). -/
inductive StorageEntry (π σ : Type) where
  | plain (s : RegistryStore π σ)
  | withShortNames (s : RegistryStore π σ) (shortNames : List String)
deriving DecidableEq

/-- Modelled from the spec: `rest.Unwrap` returns the underlying registry
store of a possibly short-names-wrapped storage entry (per the call
site's comment in `Resource`: handle both the wrapped and the unwrapped
case); its implementation file is absent from the source tree. -/
def Unwrap {π σ : Type} : StorageEntry π σ → RegistryStore π σ
  | .plain s => s
  | .withShortNames s _ => s

/-- The storage map built by `Resource`'s `apiGroupFn` for one resource
kind (src/apiserver/resource.go): the primary entry under the resource
name; iff the template type implements `ObjectWithStatusSubResource`
(`hasStatus`), a second entry under `<resource>/status` holding a value
copy of the unwrapped primary store whose update strategy is replaced by
a `PrepareForUpdaterStrategy` (override installed) around the copy's
previous update strategy. -/
def resourceStorageMap {π σ : Type} (gr : GroupResource)
    (store : StorageEntry π σ) (hasStatus : Bool) :
    List (String × StorageEntry π σ) :=
  let storage := mapWrite [] gr.resource store
  if hasStatus then
    mapWrite storage (gr.resource ++ "/status")
      (.plain { Unwrap store with
        updateStrategy :=
          .prepareForUpdaterWrap (Unwrap store).updateStrategy true })
  else storage

/-- Object metadata as used by attribute extraction: name, namespace (the
field is called `nspace` here because `namespace` is a Lean keyword) and
labels. -/
structure ObjectMeta where
  name : String
  nspace : String
  labels : List (String × String)
deriving DecidableEq

/-- A `runtime.Object` presented to `GetAttrs`: either a value
implementing `resource.Object` (it carries object metadata, and its kind
is namespace- or cluster-scoped), or some other object of a named Go
type. -/
inductive RuntimeObject where
  | resourceObject (meta : ObjectMeta) (namespaced : Bool)
  | foreign (typeName : String)
deriving DecidableEq

/-- `generic.ObjectMetaFieldsSet` of `k8s.io/apiserver`: the fixed field
set for object metadata; with the namespace field requested it holds
`metadata.name` and `metadata.namespace`. -/
def objectMetaFieldsSet (m : ObjectMeta) (hasNamespaceField : Bool) :
    List (String × String) :=
  if hasNamespaceField then
    [("metadata.name", m.name), ("metadata.namespace", m.nspace)]
  else
    [("metadata.name", m.name)]

/-- `SelectableFields` of the `rest` package: the field set of an object's
metadata, always requesting the namespace field. -/
def SelectableFields (m : ObjectMeta) : List (String × String) :=
  objectMetaFieldsSet m true

/-- `GetAttrs` of the `rest` package: reject an object that does not
implement `resource.Object`; otherwise return its labels and selectable
fields. -/
def GetAttrs : RuntimeObject →
    Except String (List (String × String) × List (String × String))
  | .resourceObject m _ => .ok (m.labels, SelectableFields m)
  | .foreign t =>
      .error ("given object of type " ++ t ++ " does not have metadata")

/-- Whether a runtime object implements the `resource.Object` metadata
accessor interface. -/
def implementsResourceObject : RuntimeObject → Bool
  | .resourceObject _ _ => true
  | .foreign _ => false

theorem mapLookup_nil {V : Type} (k : String) :
    mapLookup ([] : List (String × V)) k = none := rfl

theorem mapLookup_cons {V : Type} (p : String × V) (m : List (String × V))
    (k : String) :
    mapLookup (p :: m) k = if p.1 = k then some p.2 else mapLookup m k := by
  simp only [mapLookup, List.find?]
  by_cases h : p.1 = k
  · simp [h]
  · rw [show (p.1 == k) = false from by simp [h]]
    simp [h]

theorem mapLookup_append {V : Type} (m₁ m₂ : List (String × V)) (k : String) :
    mapLookup (m₁ ++ m₂) k =
      match mapLookup m₁ k with
      | some v => some v
      | none => mapLookup m₂ k := by
  induction m₁ with
  | nil => simp [mapLookup_nil]
  | cons p m ih =>
      rw [List.cons_append, mapLookup_cons, mapLookup_cons]
      by_cases h : p.1 = k
      · simp [h]
      · simp [h, ih]

theorem mapLookup_eq_none_of_not_mem {V : Type} {m : List (String × V)}
    {k : String} (h : ∀ p ∈ m, p.1 ≠ k) : mapLookup m k = none := by
  induction m with
  | nil => rfl
  | cons p m ih =>
      rw [mapLookup_cons]
      have hp := h p (List.mem_cons_self p m)
      simp only [hp, if_false]
      exact ih (fun q hq => h q (List.mem_cons_of_mem p hq))

theorem mapLookup_map_replace {V : Type} (m : List (String × V)) (k k' : String)
    (v : V) :
    mapLookup (m.map (fun p => if p.1 = k then (k, v) else p)) k' =
      if k' = k then (if m.any (fun p => p.1 == k) then some v else none)
      else mapLookup m k' := by
  induction m with
  | nil => by_cases hk : k' = k <;> simp [mapLookup_nil, hk]
  | cons p m ih =>
      rw [List.map_cons, mapLookup_cons, mapLookup_cons]
      by_cases hp : p.1 = k
      · simp only [hp, if_true]
        by_cases hk : k' = k
        · simp [hk, hp]
        · have hk' : ¬(k = k') := fun h => hk h.symm
          simp only [hk, if_false, hk', if_false] at ih ⊢
          exact ih
      · simp only [hp, if_false]
        by_cases hpk : p.1 = k'
        · have hk : ¬(k' = k) := fun h => hp (h ▸ hpk)
          simp [hpk, hk]
        · simp only [hpk, if_false, ih, List.any_cons, Bool.or_eq_true,
            beq_iff_eq, hp, false_or]

theorem mapLookup_mapWrite {V : Type} (m : List (String × V)) (k k' : String)
    (v : V) :
    mapLookup (mapWrite m k v) k' =
      if k' = k then some v else mapLookup m k' := by
  by_cases hany : (m.any (fun p => p.1 == k)) = true
  · rw [mapWrite, if_pos hany]
    rw [show (fun p : String × V => if p.1 == k then (k, v) else p)
          = (fun p : String × V => if p.1 = k then (k, v) else p) by
        funext p; by_cases h : p.1 = k <;> simp [h]]
    rw [mapLookup_map_replace, hany]
    simp
  · rw [mapWrite, if_neg hany]
    rw [mapLookup_append]
    have hnone : mapLookup m k = none := by
      apply mapLookup_eq_none_of_not_mem
      intro p hp hpk
      exact hany (List.any_eq_true.2 ⟨p, hp, by simp [hpk]⟩)
    by_cases hk : k' = k
    · rw [hk, hnone, mapLookup_cons]
      simp
    · have hk' : ¬(k = k') := fun h => hk h.symm
      rw [mapLookup_cons]
      simp only [hk', if_false, mapLookup_nil]
      cases h : mapLookup m k' <;> simp [h, hk]

theorem optOr_none_left {V : Type} (y : Option V) : optOr none y = y := rfl

theorem optOr_some_left {V : Type} (v : V) (y : Option V) :
    optOr (some v) y = some v := rfl

theorem mapLookup_writeAll {V : Type} (entries : List (String × V))
    (m : List (String × V)) (k : String) (hnd : NodupKeys entries) :
    mapLookup (writeAll m entries) k =
      optOr (mapLookup entries k) (mapLookup m k) := by
  induction entries generalizing m with
  | nil => simp [writeAll, mapLookup_nil, optOr_none_left]
  | cons p rest ih =>
      rw [NodupKeys, List.pairwise_cons] at hnd
      rw [writeAll, ih _ hnd.2, mapLookup_cons, mapLookup_mapWrite]
      by_cases hk : p.1 = k
      · have hrest : mapLookup rest k = none :=
          mapLookup_eq_none_of_not_mem (fun q hq => hk ▸ (hnd.1 q hq).symm)
        simp [hk, hrest, optOr]
      · have hk' : ¬(k = p.1) := fun h => hk h.symm
        simp [hk, hk']

theorem copyInner_size {V : Type} (entries : List (String × V)) (h : MHeap V)
    (cAddr : Nat) : (copyInner h cAddr entries).size = h.size := by
  induction entries generalizing h with
  | nil => rfl
  | cons p rest ih => rw [copyInner, ih]; rfl

theorem copyInner_cell {V : Type} (entries : List (String × V)) (h : MHeap V)
    (cAddr x : Nat) :
    (copyInner h cAddr entries).cell x =
      if x = cAddr then writeAll (h.cell cAddr) entries else h.cell x := by
  induction entries generalizing h with
  | nil => by_cases hx : x = cAddr <;> simp [copyInner, writeAll, hx]
  | cons p rest ih =>
      rw [copyInner, ih]
      by_cases hx : x = cAddr <;>
        simp [hx, heapSet, heapGet, writeAll]

theorem optOr_none_right {V : Type} (x : Option V) : optOr x none = x := by
  cases x <;> rfl

theorem mapLookup_some_mem {V : Type} {m : List (String × V)} {k : String}
    {v : V} (h : mapLookup m k = some v) : ∃ p ∈ m, p.1 = k ∧ p.2 = v := by
  unfold mapLookup at h
  cases hf : m.find? (fun p => p.1 == k) with
  | none => rw [hf] at h; exact absurd h (by simp)
  | some p =>
      rw [hf] at h
      have hmem := List.mem_of_find?_eq_some hf
      have hkey : p.1 = k := by
        have := List.find?_some hf
        simpa [beq_iff_eq] using this
      exact ⟨p, hmem, hkey, by simpa using h⟩

theorem mapLookup_none_forall {V : Type} {m : List (String × V)} {k : String}
    (h : mapLookup m k = none) : ∀ p ∈ m, p.1 ≠ k := by
  intro p hp
  unfold mapLookup at h
  cases hf : m.find? (fun q => q.1 == k) with
  | some q => rw [hf] at h; exact absurd h (by simp)
  | none =>
      have := List.find?_eq_none.1 hf p hp
      simpa [beq_iff_eq] using this

theorem pairwise_ne_of_mem {α : Type _} {R : α → α → Prop}
    (hsym : ∀ x y, R x y → R y x) {l : List α} (hl : l.Pairwise R)
    {p q : α} (hp : p ∈ l) (hq : q ∈ l) (hne : p ≠ q) : R p q := by
  induction l with
  | nil => cases hp
  | cons x xs ih =>
      rw [List.pairwise_cons] at hl
      rcases List.mem_cons.1 hp with hp1 | hp1 <;>
        rcases List.mem_cons.1 hq with hq1 | hq1
      · exact absurd (hp1.trans hq1.symm) hne
      · exact hp1 ▸ hl.1 q hq1
      · have : R q p := hq1 ▸ hl.1 p hp1
        exact hsym q p this
      · exact ih hl.2 hp1 hq1

theorem lookup2_nil {V : Type} (h : MHeap V) (v r : String) :
    lookup2 h ([] : List (String × Nat)) v r = none := rfl

theorem lookup2_of_some {V : Type} {h : MHeap V} {m : List (String × Nat)}
    {v : String} {a : Nat} (hc : mapLookup m v = some a) (r : String) :
    lookup2 h m v r = mapLookup (h.cell a) r := by
  simp [lookup2, hc, heapGet]

theorem lookup2_of_none {V : Type} {h : MHeap V} {m : List (String × Nat)}
    {v : String} (hc : mapLookup m v = none) (r : String) :
    lookup2 h m v r = none := by
  simp [lookup2, hc]

/-- One pass of the merge (`copyOuter`) preserves the accumulator
invariant and, observationally, lays the source map over the accumulator
(source entries win). -/
theorem copyOuter_spec {V : Type} (h0 : MHeap V) :
    ∀ src : List (String × Nat), SrcWF h0 src →
      ∀ (h : MHeap V) (c : List (String × Nat)), PassInv h0 h c →
        PassInv h0 (copyOuter h c src).1 (copyOuter h c src).2 ∧
          (∀ v r, lookup2 (copyOuter h c src).1 (copyOuter h c src).2 v r =
            optOr (lookup2 h0 src v r) (lookup2 h c v r)) := by
  intro src
  induction src with
  | nil =>
      intro _ h c hinv
      exact ⟨hinv, fun v r => by simp [copyOuter, lookup2_nil, optOr_none_left]⟩
  | cons p rest ih =>
      obtain ⟨ver, srcAddr⟩ := p
      intro hsrc h c hinv
      have hndhead : ∀ q ∈ rest, ver ≠ q.1 := by
        have := hsrc.nodup
        rw [NodupKeys, List.pairwise_cons] at this
        exact this.1
      have haddr : srcAddr < h0.size :=
        hsrc.addrLt _ (List.mem_cons_self _ _)
      have hcellnd : NodupKeys (h0.cell srcAddr) :=
        hsrc.cellNodup _ (List.mem_cons_self _ _)
      have hsrcrest : SrcWF h0 rest :=
        ⟨by have := hsrc.nodup
            rw [NodupKeys, List.pairwise_cons] at this
            exact this.2,
         fun q hq => hsrc.addrLt q (List.mem_cons_of_mem _ hq),
         fun q hq => hsrc.cellNodup q (List.mem_cons_of_mem _ hq)⟩
      have hgetsrc : heapGet h srcAddr = h0.cell srcAddr :=
        hinv.frozen srcAddr haddr
      have hrest_none : mapLookup rest ver = none :=
        mapLookup_eq_none_of_not_mem (fun q hq => (hndhead q hq).symm)
      have hhead_lookup : mapLookup ((ver, srcAddr) :: rest) ver =
          some srcAddr := by
        rw [mapLookup_cons]; simp
      cases hc : mapLookup c ver with
      | some cAddr =>
          obtain ⟨pc, hpc_mem, hpc_key, hpc_addr⟩ := mapLookup_some_mem hc
          have hge : h0.size ≤ cAddr := hpc_addr ▸ hinv.addrGe pc hpc_mem
          have hlt : cAddr < h.size := hpc_addr ▸ hinv.addrLt pc hpc_mem
          have h2size : (copyInner h cAddr (heapGet h srcAddr)).size = h.size :=
            copyInner_size _ _ _
          have h2cell : ∀ x, (copyInner h cAddr (heapGet h srcAddr)).cell x =
              if x = cAddr then writeAll (h.cell cAddr) (h0.cell srcAddr)
              else h.cell x := by
            intro x; rw [copyInner_cell, hgetsrc]
          have hinv2 : PassInv h0 (copyInner h cAddr (heapGet h srcAddr)) c :=
            { size_le := h2size ▸ hinv.size_le
              frozen := fun x hx => by
                rw [h2cell]
                have hne : x ≠ cAddr :=
                  Nat.ne_of_lt (Nat.lt_of_lt_of_le hx hge)
                simp only [hne, if_false]
                exact hinv.frozen x hx
              addrGe := hinv.addrGe
              addrLt := fun q hq => h2size ▸ hinv.addrLt q hq
              keyNodup := hinv.keyNodup
              addrNodup := hinv.addrNodup }
          obtain ⟨hinvF, hcharF⟩ :=
            ih hsrcrest (copyInner h cAddr (heapGet h srcAddr)) c hinv2
          have hred : copyOuter h c ((ver, srcAddr) :: rest) =
              copyOuter (copyInner h cAddr (heapGet h srcAddr)) c rest := by
            simp [copyOuter, hc]
          rw [hred]
          refine ⟨hinvF, fun v r => ?_⟩
          rw [hcharF v r]
          by_cases hv : v = ver
          · subst hv
            have l2c : lookup2 h c v r = mapLookup (h.cell cAddr) r :=
              lookup2_of_some hc r
            have l2c2 : lookup2 (copyInner h cAddr (heapGet h srcAddr)) c v r =
                optOr (mapLookup (h0.cell srcAddr) r)
                  (mapLookup (h.cell cAddr) r) := by
              rw [lookup2_of_some hc r, h2cell]
              simp only [if_pos rfl]
              exact mapLookup_writeAll _ _ _ hcellnd
            rw [l2c2, lookup2_of_none hrest_none, lookup2_of_some hhead_lookup,
              l2c, optOr_none_left]
          · have hhead_ne : mapLookup ((ver, srcAddr) :: rest) v =
                mapLookup rest v := by
              rw [mapLookup_cons]
              exact if_neg (fun h' : ver = v => hv h'.symm)
            have l2head : lookup2 h0 ((ver, srcAddr) :: rest) v r =
                lookup2 h0 rest v r := by
              unfold lookup2; rw [hhead_ne]
            rw [l2head]
            have l2same : lookup2 (copyInner h cAddr (heapGet h srcAddr)) c v r =
                lookup2 h c v r := by
              cases hcv : mapLookup c v with
              | none => rw [lookup2_of_none hcv, lookup2_of_none hcv]
              | some a' =>
                  obtain ⟨q, hq_mem, hq_key, hq_addr⟩ := mapLookup_some_mem hcv
                  have hpq : pc ≠ q := by
                    intro hcontra
                    have hvv : ver = v := by rw [← hpc_key, hcontra, hq_key]
                    exact hv hvv.symm
                  have hane : a' ≠ cAddr := by
                    have hne := pairwise_ne_of_mem
                      (fun x y hxy => Ne.symm hxy) hinv.addrNodup
                      hpc_mem hq_mem hpq
                    intro hcontra
                    exact hne (by rw [hpc_addr, ← hcontra, ← hq_addr])
                  rw [lookup2_of_some hcv, lookup2_of_some hcv, h2cell]
                  simp [hane]
            rw [l2same]
      | none =>
          have hc1 : mapLookup c ver = none := hc
          have hfresh : ∀ q ∈ c, q.1 ≠ ver := mapLookup_none_forall hc
          have hsrcne : srcAddr ≠ h.size :=
            Nat.ne_of_lt (Nat.lt_of_lt_of_le haddr hinv.size_le)
          have hget1 : heapGet (heapAlloc h).1 srcAddr = h0.cell srcAddr := by
            show (heapAlloc h).1.cell srcAddr = h0.cell srcAddr
            simp only [heapAlloc, hsrcne, if_false]
            exact hinv.frozen srcAddr haddr
          have h2size :
              (copyInner (heapAlloc h).1 (heapAlloc h).2
                (heapGet (heapAlloc h).1 srcAddr)).size = h.size + 1 := by
            rw [copyInner_size]; rfl
          have h2cell : ∀ x,
              (copyInner (heapAlloc h).1 (heapAlloc h).2
                (heapGet (heapAlloc h).1 srcAddr)).cell x =
              if x = h.size then writeAll [] (h0.cell srcAddr)
              else h.cell x := by
            intro x
            rw [copyInner_cell, hget1]
            by_cases hx : x = h.size
            · simp [hx, heapAlloc]
            · simp [hx, heapAlloc]
          have hinv2 : PassInv h0
              (copyInner (heapAlloc h).1 (heapAlloc h).2
                (heapGet (heapAlloc h).1 srcAddr))
              (c ++ [(ver, (heapAlloc h).2)]) :=
            { size_le := h2size ▸ Nat.le_succ_of_le hinv.size_le
              frozen := fun x hx => by
                rw [h2cell]
                have hne : x ≠ h.size :=
                  Nat.ne_of_lt (Nat.lt_of_lt_of_le hx hinv.size_le)
                simp only [hne, if_false]
                exact hinv.frozen x hx
              addrGe := by
                intro q hq
                rcases List.mem_append.1 hq with hq1 | hq1
                · exact hinv.addrGe q hq1
                · have : q = (ver, h.size) := List.mem_singleton.1 hq1
                  rw [this]; exact hinv.size_le
              addrLt := by
                intro q hq
                rw [h2size]
                rcases List.mem_append.1 hq with hq1 | hq1
                · exact Nat.lt_succ_of_lt (hinv.addrLt q hq1)
                · have : q = (ver, h.size) := List.mem_singleton.1 hq1
                  rw [this]; exact Nat.lt_succ_self _
              keyNodup := by
                rw [NodupKeys, List.pairwise_append]
                refine ⟨hinv.keyNodup, List.pairwise_singleton _ _, ?_⟩
                intro q hq q' hq'
                have : q' = (ver, h.size) := List.mem_singleton.1 hq'
                rw [this]; exact hfresh q hq
              addrNodup := by
                rw [List.pairwise_append]
                refine ⟨hinv.addrNodup, List.pairwise_singleton _ _, ?_⟩
                intro q hq q' hq'
                have : q' = (ver, h.size) := List.mem_singleton.1 hq'
                rw [this]
                exact Nat.ne_of_lt (hinv.addrLt q hq) }
          obtain ⟨hinvF, hcharF⟩ :=
            ih hsrcrest
              (copyInner (heapAlloc h).1 (heapAlloc h).2
                (heapGet (heapAlloc h).1 srcAddr))
              (c ++ [(ver, (heapAlloc h).2)]) hinv2
          have hred : copyOuter h c ((ver, srcAddr) :: rest) =
              copyOuter
                (copyInner (heapAlloc h).1 (heapAlloc h).2
                  (heapGet (heapAlloc h).1 srcAddr))
                (c ++ [(ver, (heapAlloc h).2)]) rest := by
            simp [copyOuter, hc]
          rw [hred]
          refine ⟨hinvF, fun v r => ?_⟩
          rw [hcharF v r]
          have hc1lookup : mapLookup (c ++ [(ver, (heapAlloc h).2)]) ver =
              some h.size := by
            rw [mapLookup_append, hc1]
            show mapLookup [(ver, h.size)] ver = some h.size
            rw [mapLookup_cons]; simp
          by_cases hv : v = ver
          · subst hv
            have l2c2 :
                lookup2
                  (copyInner (heapAlloc h).1 (heapAlloc h).2
                    (heapGet (heapAlloc h).1 srcAddr))
                  (c ++ [(v, (heapAlloc h).2)]) v r =
                mapLookup (h0.cell srcAddr) r := by
              rw [lookup2_of_some hc1lookup, h2cell]
              simp only [eq_self_iff_true, if_true]
              rw [mapLookup_writeAll _ _ _ hcellnd, mapLookup_nil,
                optOr_none_right]
            rw [l2c2, lookup2_of_none hrest_none, lookup2_of_some hhead_lookup,
              lookup2_of_none hc1, optOr_none_left, optOr_none_right]
          · have hhead_ne : mapLookup ((ver, srcAddr) :: rest) v =
                mapLookup rest v := by
              rw [mapLookup_cons]
              exact if_neg (fun h' : ver = v => hv h'.symm)
            have l2head : lookup2 h0 ((ver, srcAddr) :: rest) v r =
                lookup2 h0 rest v r := by
              unfold lookup2; rw [hhead_ne]
            rw [l2head]
            have happ : mapLookup (c ++ [(ver, (heapAlloc h).2)]) v =
                mapLookup c v := by
              rw [mapLookup_append]
              cases hcv : mapLookup c v with
              | some a' => rfl
              | none =>
                  show mapLookup [(ver, h.size)] v = none
                  rw [mapLookup_cons]
                  rw [if_neg (fun h' : ver = v => hv h'.symm)]
                  exact mapLookup_nil v
            have l2same :
                lookup2
                  (copyInner (heapAlloc h).1 (heapAlloc h).2
                    (heapGet (heapAlloc h).1 srcAddr))
                  (c ++ [(ver, (heapAlloc h).2)]) v r =
                lookup2 h c v r := by
              cases hcv : mapLookup c v with
              | none =>
                  rw [lookup2_of_none (happ.trans hcv),
                    lookup2_of_none hcv]
              | some a' =>
                  obtain ⟨q, hq_mem, hq_key, hq_addr⟩ := mapLookup_some_mem hcv
                  have hane : a' ≠ h.size :=
                    hq_addr ▸ Nat.ne_of_lt (hinv.addrLt q hq_mem)
                  rw [lookup2_of_some (happ.trans hcv),
                    lookup2_of_some hcv, h2cell]
                  simp [hane]
            rw [l2same]

/-- The trivial invariant at the start of a merge: empty accumulator over
the pristine heap. -/
theorem passInv_init {V : Type} (h : MHeap V) :
    PassInv h h ([] : List (String × Nat)) :=
  { size_le := Nat.le_refl _
    frozen := fun _ _ => rfl
    addrGe := fun _ hq => absurd hq (List.not_mem_nil _)
    addrLt := fun _ hq => absurd hq (List.not_mem_nil _)
    keyNodup := List.Pairwise.nil
    addrNodup := List.Pairwise.nil }

/-- Observational result of `mergeVersionedResourcesStorageMap`: for every
`(version, resource)` pair, the merged map holds `b`'s adapter when `b`
has one, and otherwise `a`'s (the second loop's writes win). -/
theorem merge_lookup {V : Type} (h : MHeap V) (a b : List (String × Nat))
    (ha : SrcWF h a) (hb : SrcWF h b) (v r : String) :
    lookup2 (mergeVersionedResourcesStorageMap h a b).1
      (mergeVersionedResourcesStorageMap h a b).2 v r =
    optOr (lookup2 h b v r) (lookup2 h a v r) := by
  obtain ⟨hinv1, hchar1⟩ := copyOuter_spec h a ha h [] (passInv_init h)
  obtain ⟨hinv2, hchar2⟩ :=
    copyOuter_spec h b hb (copyOuter h [] a).1 (copyOuter h [] a).2 hinv1
  show lookup2 (copyOuter (copyOuter h [] a).1 (copyOuter h [] a).2 b).1
      (copyOuter (copyOuter h [] a).1 (copyOuter h [] a).2 b).2 v r = _
  rw [hchar2 v r, hchar1 v r, lookup2_nil, optOr_none_right]

/-- The merge never mutates a pre-existing inner map: every heap cell
allocated before the call (in particular every cell referenced by `a` or
`b`) is unchanged afterwards. -/
theorem merge_frozen {V : Type} (h : MHeap V) (a b : List (String × Nat))
    (ha : SrcWF h a) (hb : SrcWF h b) :
    ∀ x, x < h.size →
      (mergeVersionedResourcesStorageMap h a b).1.cell x = h.cell x := by
  obtain ⟨hinv1, _⟩ := copyOuter_spec h a ha h [] (passInv_init h)
  obtain ⟨hinv2, _⟩ :=
    copyOuter_spec h b hb (copyOuter h [] a).1 (copyOuter h [] a).2 hinv1
  exact fun x hx => hinv2.frozen x hx

theorem keyDisjoint_lookup {V : Type} {h : MHeap V}
    {a b : List (String × Nat)} (hd : KeyDisjoint h a b) (v r : String) :
    lookup2 h a v r = none ∨ lookup2 h b v r = none := by
  by_cases hav : lookup2 h a v r = none
  · exact Or.inl hav
  · right
    cases hal : mapLookup a v with
    | none => exact absurd (lookup2_of_none hal r) hav
    | some ad =>
        rw [lookup2_of_some hal] at hav
        cases hae : mapLookup (h.cell ad) r with
        | none => exact absurd hae hav
        | some x =>
            obtain ⟨p, hp_mem, hp_key, hp_addr⟩ := mapLookup_some_mem hal
            obtain ⟨e, he_mem, he_key, _⟩ := mapLookup_some_mem hae
            cases hbl : mapLookup b v with
            | none => exact lookup2_of_none hbl r
            | some bd =>
                rw [lookup2_of_some hbl]
                obtain ⟨q, hq_mem, hq_key, hq_addr⟩ := mapLookup_some_mem hbl
                apply mapLookup_eq_none_of_not_mem
                intro f hf_mem
                have := hd p hp_mem q hq_mem (hp_key.trans hq_key.symm)
                have hef := this e (by rw [heapGet, hp_addr]; exact he_mem)
                  f (by rw [heapGet, hq_addr]; exact hf_mem)
                rw [he_key] at hef
                exact hef.symm

/-- C3: merging two versioned storage maps whose (version, resource-name)
key sets are disjoint yields exactly the union of the two key sets, each
key mapped to the same adapter value it had in its input of origin, and
the call mutates neither input: every inner map allocated before the call
(in particular every inner map referenced by `a` or `b`) is unchanged. -/
theorem c3_merge_disjoint_is_union {V : Type} (h : MHeap V)
    (a b : List (String × Nat)) (ha : SrcWF h a) (hb : SrcWF h b)
    (hdisj : KeyDisjoint h a b) :
    (∀ v r x, lookup2 h a v r = some x →
      lookup2 (mergeVersionedResourcesStorageMap h a b).1
        (mergeVersionedResourcesStorageMap h a b).2 v r = some x) ∧
    (∀ v r x, lookup2 h b v r = some x →
      lookup2 (mergeVersionedResourcesStorageMap h a b).1
        (mergeVersionedResourcesStorageMap h a b).2 v r = some x) ∧
    (∀ v r, lookup2 h a v r = none → lookup2 h b v r = none →
      lookup2 (mergeVersionedResourcesStorageMap h a b).1
        (mergeVersionedResourcesStorageMap h a b).2 v r = none) ∧
    (∀ x, x < h.size →
      (mergeVersionedResourcesStorageMap h a b).1.cell x = h.cell x) := by
  refine ⟨?_, ?_, ?_, merge_frozen h a b ha hb⟩
  · intro v r x hx
    rw [merge_lookup h a b ha hb v r]
    rcases keyDisjoint_lookup hdisj v r with hnone | hnone
    · rw [hnone] at hx; cases hx
    · rw [hnone, optOr_none_left]; exact hx
  · intro v r x hx
    rw [merge_lookup h a b ha hb v r, hx, optOr_some_left]
  · intro v r hxa hxb
    rw [merge_lookup h a b ha hb v r, hxa, hxb, optOr_none_left]

/-- Witness for C3 at a concrete disjoint instance: two maps for version
"v1" with resources "pods" (adapter 10) and "orders" (adapter 20); the
merge holds both under "v1" and leaves the first input's inner map cell
untouched. -/
theorem c3_witness :
    lookup2
      (mergeVersionedResourcesStorageMap
        (⟨fun x => if x = 0 then [("pods", (10 : Nat))]
          else if x = 1 then [("orders", 20)] else [], 2⟩ : MHeap Nat)
        [("v1", 0)] [("v1", 1)]).1
      (mergeVersionedResourcesStorageMap
        (⟨fun x => if x = 0 then [("pods", (10 : Nat))]
          else if x = 1 then [("orders", 20)] else [], 2⟩ : MHeap Nat)
        [("v1", 0)] [("v1", 1)]).2 "v1" "pods" = some 10 ∧
    lookup2
      (mergeVersionedResourcesStorageMap
        (⟨fun x => if x = 0 then [("pods", (10 : Nat))]
          else if x = 1 then [("orders", 20)] else [], 2⟩ : MHeap Nat)
        [("v1", 0)] [("v1", 1)]).1
      (mergeVersionedResourcesStorageMap
        (⟨fun x => if x = 0 then [("pods", (10 : Nat))]
          else if x = 1 then [("orders", 20)] else [], 2⟩ : MHeap Nat)
        [("v1", 0)] [("v1", 1)]).2 "v1" "orders" = some 20 ∧
    (mergeVersionedResourcesStorageMap
        (⟨fun x => if x = 0 then [("pods", (10 : Nat))]
          else if x = 1 then [("orders", 20)] else [], 2⟩ : MHeap Nat)
        [("v1", 0)] [("v1", 1)]).1.cell 0 =
      (⟨fun x => if x = 0 then [("pods", (10 : Nat))]
          else if x = 1 then [("orders", 20)] else [], 2⟩ : MHeap Nat).cell 0 := by
  have H := c3_merge_disjoint_is_union
    (⟨fun x => if x = 0 then [("pods", (10 : Nat))]
      else if x = 1 then [("orders", 20)] else [], 2⟩ : MHeap Nat)
    [("v1", 0)] [("v1", 1)]
    ⟨by decide, by decide, by decide⟩
    ⟨by decide, by decide, by decide⟩
    (by decide)
  exact ⟨H.1 "v1" "pods" 10 (by decide),
    H.2.1 "v1" "orders" 20 (by decide),
    H.2.2.2 0 (by decide)⟩

/-- Counterexample for C2 as stated: two maps that both hold an adapter
under the same (version, resource-name) key ("v1", "pods"): adapter 1 in
`a` (heap cell 0) and adapter 2 in `b` (heap cell 1).  The merge returns
normally — the function is total, it has no error or panic path — and
maps the colliding key to `b`'s adapter 2, silently dropping `a`'s
adapter 1, instead of treating the collision as a configuration error. -/
theorem c2_counterexample :
    lookup2
      (mergeVersionedResourcesStorageMap
        (⟨fun x => if x = 0 then [("pods", (1 : Nat))]
          else if x = 1 then [("pods", 2)] else [], 2⟩ : MHeap Nat)
        [("v1", 0)] [("v1", 1)]).1
      (mergeVersionedResourcesStorageMap
        (⟨fun x => if x = 0 then [("pods", (1 : Nat))]
          else if x = 1 then [("pods", 2)] else [], 2⟩ : MHeap Nat)
        [("v1", 0)] [("v1", 1)]).2 "v1" "pods" = some 2 ∧
    lookup2
      (⟨fun x => if x = 0 then [("pods", (1 : Nat))]
        else if x = 1 then [("pods", 2)] else [], 2⟩ : MHeap Nat)
      [("v1", 0)] "v1" "pods" = some 1 ∧
    (1 : Nat) ≠ 2 := by
  refine ⟨by decide, by decide, by decide⟩

/-- C2 amended: on a (version, resource-name) collision the merge raises
no error and silently overwrites — the result maps the colliding key to
the adapter of `b`, the second argument, and `a`'s adapter is dropped. -/
theorem c2_merge_collision_second_wins {V : Type} (h : MHeap V)
    (a b : List (String × Nat)) (ha : SrcWF h a) (hb : SrcWF h b)
    (v r : String) (x y : V)
    (_hxa : lookup2 h a v r = some x) (hxb : lookup2 h b v r = some y) :
    lookup2 (mergeVersionedResourcesStorageMap h a b).1
      (mergeVersionedResourcesStorageMap h a b).2 v r = some y := by
  rw [merge_lookup h a b ha hb v r, hxb, optOr_some_left]

/-- Witness for the amended C2 at the concrete colliding instance: the
merged map holds `b`'s adapter 2 under ("v1", "pods"). -/
theorem c2_witness :
    lookup2
      (mergeVersionedResourcesStorageMap
        (⟨fun x => if x = 0 then [("pods", (1 : Nat))]
          else if x = 1 then [("pods", 2)] else [], 2⟩ : MHeap Nat)
        [("v1", 0)] [("v1", 1)]).1
      (mergeVersionedResourcesStorageMap
        (⟨fun x => if x = 0 then [("pods", (1 : Nat))]
          else if x = 1 then [("pods", 2)] else [], 2⟩ : MHeap Nat)
        [("v1", 0)] [("v1", 1)]).2 "v1" "pods" = some 2 :=
  c2_merge_collision_second_wins
    (⟨fun x => if x = 0 then [("pods", (1 : Nat))]
      else if x = 1 then [("pods", 2)] else [], 2⟩ : MHeap Nat)
    [("v1", 0)] [("v1", 1)]
    ⟨by decide, by decide, by decide⟩
    ⟨by decide, by decide, by decide⟩
    "v1" "pods" 1 2 (by decide) (by decide)

theorem resourceGroupCheck_error_of_mismatch
    (grGroup : String) (gvs : List GroupVersion)
    (hex : ∃ gv ∈ gvs, gv.group ≠ grGroup) :
    resourceGroupCheck grGroup gvs = .error "unexpected group mismatch" := by
  induction gvs with
  | nil => obtain ⟨gv, hmem, _⟩ := hex; exact absurd hmem (List.not_mem_nil _)
  | cons gv rest ih =>
      rw [resourceGroupCheck]
      by_cases hgv : gv.group = grGroup
      · simp only [hgv, ne_eq, not_true_eq_false, if_false]
        apply ih
        obtain ⟨gv', hmem, hne⟩ := hex
        rcases List.mem_cons.1 hmem with h1 | h1
        · exact absurd (h1 ▸ hgv) hne
        · exact ⟨gv', h1, hne⟩
      · simp [hgv]

theorem builderGroupScanAux_error_of_mismatch
    (gvs : List GroupVersion) :
    ∀ groupName, groupName ≠ "" → (∃ gv ∈ gvs, gv.group ≠ groupName) →
      builderGroupScanAux groupName gvs =
        .error "all exposed resources expected to have the same group" := by
  induction gvs with
  | nil =>
      intro groupName _ hex
      obtain ⟨gv, hmem, _⟩ := hex; exact absurd hmem (List.not_mem_nil _)
  | cons gv rest ih =>
      intro groupName hne hex
      rw [builderGroupScanAux]
      by_cases hgv : gv.group = groupName
      · have hcond : ¬(groupName ≠ "" ∧ groupName ≠ gv.group) := by
          intro hc; exact hc.2 hgv.symm
        rw [if_neg hcond, hgv]
        apply ih groupName hne
        obtain ⟨gv', hmem, hgne⟩ := hex
        rcases List.mem_cons.1 hmem with h1 | h1
        · exact absurd (h1 ▸ hgv) hgne
        · exact ⟨gv', h1, hgne⟩
      · rw [if_pos ⟨hne, fun h => hgv h.symm⟩]

theorem builderGroupScanAux_error_of_two
    (gvs : List GroupVersion) :
    ∀ groupName, (∀ gv ∈ gvs, gv.group ≠ "") →
      (∃ gv1 ∈ gvs, ∃ gv2 ∈ gvs, gv1.group ≠ gv2.group) →
      builderGroupScanAux groupName gvs =
        .error "all exposed resources expected to have the same group" := by
  induction gvs with
  | nil =>
      intro groupName _ hex
      obtain ⟨gv, hmem, _⟩ := hex; exact absurd hmem (List.not_mem_nil _)
  | cons gv rest ih =>
      intro groupName hne hex
      have hrest : ∃ gv' ∈ rest, gv'.group ≠ gv.group := by
        by_contra hall
        push_neg at hall
        obtain ⟨gv1, h1, gv2, h2, h12⟩ := hex
        have hval : ∀ g ∈ gv :: rest, g.group = gv.group := by
          intro g hg
          rcases List.mem_cons.1 hg with hg1 | hg1
          · rw [hg1]
          · exact hall g hg1
        exact h12 ((hval gv1 h1).trans (hval gv2 h2).symm)
      rw [builderGroupScanAux]
      by_cases hcond : groupName ≠ "" ∧ groupName ≠ gv.group
      · rw [if_pos hcond]
      · rw [if_neg hcond]
        exact builderGroupScanAux_error_of_mismatch rest gv.group
          (hne gv (List.mem_cons_self _ _)) hrest

/-- Counterexample for C4 as stated: the group-versions ("", v1) and
("example.com", v1) have different group names, yet neither the builder
scan (the empty group name coincides with the scan's "unset" sentinel)
nor either registration's own check (each registration is internally
consistent with its template's group) raises a panic during assembly. -/
theorem c4_counterexample :
    builderGroupScan
      [⟨"", "v1"⟩, ⟨"example.com", "v1"⟩] = .ok "example.com" ∧
    resourceGroupCheck "" [⟨"", "v1"⟩] = .ok () ∧
    resourceGroupCheck "example.com" [⟨"example.com", "v1"⟩] = .ok () ∧
    ("" : String) ≠ "example.com" :=
  ⟨rfl, rfl, rfl, by decide⟩

/-- C4 amended: two group-versions with different group names raise a
panic during assembly — always when supplied to one `Resource`
registration (the check against the template's derived group), and, for
group-versions accumulated across registrations in one builder, provided
no supplied group name is empty (the empty name is the builder scan's
"unset" sentinel and escapes the scan). -/
theorem c4_group_mismatch_panics :
    (∀ (grGroup : String) (gvs : List GroupVersion) (gv1 gv2 : GroupVersion),
      gv1 ∈ gvs → gv2 ∈ gvs → gv1.group ≠ gv2.group →
      resourceGroupCheck grGroup gvs = .error "unexpected group mismatch") ∧
    (∀ (gvs : List GroupVersion) (gv1 gv2 : GroupVersion),
      (∀ gv ∈ gvs, gv.group ≠ "") →
      gv1 ∈ gvs → gv2 ∈ gvs → gv1.group ≠ gv2.group →
      builderGroupScan gvs =
        .error "all exposed resources expected to have the same group") := by
  constructor
  · intro grGroup gvs gv1 gv2 h1 h2 h12
    apply resourceGroupCheck_error_of_mismatch
    by_cases hg : gv1.group = grGroup
    · exact ⟨gv2, h2, fun hc => h12 (hg.trans hc.symm)⟩
    · exact ⟨gv1, h1, hg⟩
  · intro gvs gv1 gv2 hne h1 h2 h12
    exact builderGroupScanAux_error_of_two gvs "" hne ⟨gv1, h1, gv2, h2, h12⟩

/-- Witness for the amended C4 at concrete inputs: groups "g" and "h"
(one registration, and one builder accumulation) both panic. -/
theorem c4_witness :
    resourceGroupCheck "g" [⟨"g", "v1"⟩, ⟨"h", "v1"⟩] =
      .error "unexpected group mismatch" ∧
    builderGroupScan [⟨"g", "v1"⟩, ⟨"h", "v1"⟩] =
      .error "all exposed resources expected to have the same group" :=
  ⟨c4_group_mismatch_panics.1 "g" [⟨"g", "v1"⟩, ⟨"h", "v1"⟩]
      ⟨"g", "v1"⟩ ⟨"h", "v1"⟩ (by decide) (by decide) (by decide),
    c4_group_mismatch_panics.2 [⟨"g", "v1"⟩, ⟨"h", "v1"⟩]
      ⟨"g", "v1"⟩ ⟨"h", "v1"⟩ (by decide) (by decide) (by decide) (by decide)⟩

theorem withMinor_self (v : KVersion) : withMinor v v.minor = v := rfl

theorem greaterThan_withMinor (v : KVersion) (n : Nat) :
    greaterThan (withMinor v n) v = decide (v.minor < n) := by
  by_cases hn : n = v.minor <;>
    simp [greaterThan, withMinor, hn]

theorem versionToKubeVersion_eq (kubeVer ver : KVersion)
    (h1 : ver.major = 1) :
    versionToKubeVersion kubeVer ver =
      some (withMinor kubeVer
        (min (kubeVer.minor + ver.minor - 2) kubeVer.minor)) := by
  unfold versionToKubeVersion
  rw [if_neg (by simp [h1])]
  by_cases hm : 2 ≤ ver.minor
  · have hoff : (0 : Int) ≤ (ver.minor : Int) - 2 := by omega
    have hmap : offsetMinor kubeVer ((ver.minor : Int) - 2) =
        withMinor kubeVer (kubeVer.minor + (ver.minor - 2)) := by
      rw [offsetMinor, if_pos hoff]
      congr 1
      omega
    rw [hmap, greaterThan_withMinor]
    by_cases hlt : kubeVer.minor < kubeVer.minor + (ver.minor - 2)
    · rw [if_pos (by simpa using hlt)]
      have : min (kubeVer.minor + ver.minor - 2) kubeVer.minor =
          kubeVer.minor := by omega
      rw [this, withMinor_self]
    · rw [if_neg (by simpa using hlt)]
      congr 2
      omega
  · have hoff : ¬((0 : Int) ≤ (ver.minor : Int) - 2) := by omega
    have hd : ((-((ver.minor : Int) - 2)).toNat) = 2 - ver.minor := by omega
    have hmap : offsetMinor kubeVer ((ver.minor : Int) - 2) =
        withMinor kubeVer
          (min (kubeVer.minor + ver.minor - 2) kubeVer.minor) := by
      rw [offsetMinor, if_neg hoff, hd]
      congr 1
      by_cases hcase : 2 - ver.minor < kubeVer.minor
      · rw [if_pos hcase]; omega
      · rw [if_neg hcase]; omega
    rw [hmap, greaterThan_withMinor]
    rw [if_neg (by simp)]

/-- C5: for the dependent component's current version `kubeVer`, the
mapping sends any declared version `ver` of major 1 to `kubeVer` offset
in minors by `ver.minor - 2` and clamped to never exceed `kubeVer` (for
an offset that would exceed it, `kubeVer` itself is returned); a version
of any other major is mapped to nothing. -/
theorem c5_version_to_kube_version (kubeVer ver : KVersion) :
    (ver.major = 1 →
      versionToKubeVersion kubeVer ver =
        some (withMinor kubeVer
          (min (kubeVer.minor + ver.minor - 2) kubeVer.minor)) ∧
      (∀ r, versionToKubeVersion kubeVer ver = some r →
        greaterThan r kubeVer = false) ∧
      (2 ≤ ver.minor → versionToKubeVersion kubeVer ver = some kubeVer)) ∧
    (ver.major ≠ 1 → versionToKubeVersion kubeVer ver = none) := by
  constructor
  · intro h1
    have heq := versionToKubeVersion_eq kubeVer ver h1
    refine ⟨heq, ?_, ?_⟩
    · intro r hr
      rw [heq] at hr
      have hrv : r = withMinor kubeVer
          (min (kubeVer.minor + ver.minor - 2) kubeVer.minor) :=
        (Option.some.injEq _ _ ▸ hr).symm
      rw [hrv, greaterThan_withMinor]
      simp
    · intro hm
      rw [heq]
      have : min (kubeVer.minor + ver.minor - 2) kubeVer.minor =
          kubeVer.minor := by omega
      rw [this, withMinor_self]
  · intro h1
    unfold versionToKubeVersion
    rw [if_pos h1]

/-- Witness for C5 at concrete inputs with `kubeVer = 1.34.0`: version
1.36 would map two minors past the maximum and is clamped to 1.34 itself;
version 2.0 has no mapping. -/
theorem c5_witness :
    versionToKubeVersion ⟨1, 34, 0⟩ ⟨1, 36, 0⟩ = some ⟨1, 34, 0⟩ ∧
    versionToKubeVersion ⟨1, 34, 0⟩ ⟨2, 0, 0⟩ = none :=
  ⟨((c5_version_to_kube_version ⟨1, 34, 0⟩ ⟨1, 36, 0⟩).1 rfl).2.2 (by decide),
    (c5_version_to_kube_version ⟨1, 34, 0⟩ ⟨2, 0, 0⟩).2 (by decide)⟩

/-- C1: for every stored object `old = {spec := S0, status := T0}` and
incoming candidate `obj = {spec := S1, status := T1}`, the status
subresource strategy's PrepareForUpdate commits
`{spec := S0, status := T1}` — the spec is reset to the stored spec and
the status takes the new value, for all payloads. -/
theorem c1_status_split {Ctx S T ε : Type} (ctx : Ctx) (obj old : Obj S T) :
    ((statusUpdateStrategy Ctx S T ε).prepareForUpdate ctx obj old).1 =
      ⟨old.spec, obj.status⟩ := rfl

/-- C6: for a resource type with no optional capabilities, the default
strategy generates names unchanged, forbids create-on-update and
unconditional update, validates everything with empty error lists, and
leaves objects untouched by the prepare and canonicalize steps. -/
theorem c6_default_strategy_inert {Ctx α ε : Type} (ctx : Ctx)
    (base : String) (obj old : α) :
    DefaultStrategy.generateName (noCapabilities Ctx α ε) base = base ∧
    DefaultStrategy.allowCreateOnUpdate (noCapabilities Ctx α ε) = false ∧
    DefaultStrategy.allowUnconditionalUpdate (noCapabilities Ctx α ε) = false ∧
    DefaultStrategy.validate (noCapabilities Ctx α ε) ctx obj = [] ∧
    DefaultStrategy.validateUpdate (noCapabilities Ctx α ε) ctx obj old = [] ∧
    DefaultStrategy.prepareForCreate (noCapabilities Ctx α ε) ctx obj = obj ∧
    DefaultStrategy.prepareForUpdate (noCapabilities Ctx α ε) ctx obj old = obj ∧
    DefaultStrategy.canonicalize (noCapabilities Ctx α ε) obj = obj :=
  ⟨rfl, rfl, rfl, rfl, rfl, rfl, rfl, rfl⟩

/-- C7: for a status-capable resource kind, an update through the main
(non-status) endpoint preserves the stored status: after the default
strategy's PrepareForUpdate the candidate carries the stored object's
status, while its non-status fields are those of the incoming
candidate. -/
theorem c7_main_endpoint_preserves_status {Ctx S T ε : Type} (ctx : Ctx)
    (obj old : Obj S T) :
    DefaultStrategy.prepareForUpdate (statusCapabilities Ctx S T ε)
      ctx obj old = ⟨obj.spec, old.status⟩ := rfl

/-- C10: `PrepareForUpdaterStrategy.PrepareForUpdate` is total: with a nil
`OverrideFn` it performs no override and returns a value on every input
(there is no failure path in the type); with a non-nil `OverrideFn` the
result is determined by a single application of the override at exactly
the context, candidate, and stored object passed in, as the counting
instrumentation in the last conjunct shows (the instrumented override
increments a counter carried by the candidate exactly once). -/
theorem c10_prepare_for_updater_total {Ctx α : Type}
    (inner : Ctx → α → α → α) (f : Ctx → α → α → α × α) (ctx : Ctx)
    (obj old : α) :
    (PrepareForUpdaterStrategy.prepareForUpdate
      (⟨none, none⟩ : PrepareForUpdaterStrategy Ctx α) ctx obj old =
      (obj, old)) ∧
    (PrepareForUpdaterStrategy.prepareForUpdate
      (⟨some inner, none⟩ : PrepareForUpdaterStrategy Ctx α) ctx obj old =
      (inner ctx obj old, old)) ∧
    (PrepareForUpdaterStrategy.prepareForUpdate
      (⟨some inner, some f⟩ : PrepareForUpdaterStrategy Ctx α) ctx obj old =
      (inner ctx (f ctx obj old).1 (f ctx obj old).2, (f ctx obj old).2)) ∧
    (∀ n m : Nat,
      ((PrepareForUpdaterStrategy.prepareForUpdate
        (⟨none, some (fun c (p q : α × Nat) =>
          (((f c p.1 q.1).1, p.2 + 1), ((f c p.1 q.1).2, q.2)))⟩ :
          PrepareForUpdaterStrategy Ctx (α × Nat))
        ctx (obj, n) (old, m)).1).2 = n + 1) :=
  ⟨rfl, rfl, rfl, fun _ _ => rfl⟩

theorem ne_append_status (s : String) : s ≠ s ++ "/status" := by
  intro h
  have hlen : s.length = s.length + ("/status" : String).length := by
    conv_lhs => rw [h]
    rw [String.length_append]
  have h7 : ("/status" : String).length = 7 := rfl
  omega

/-- C8: a `<resource>/status` storage entry exists iff the template is
status-capable; when it exists it is a plain store equal to the unwrapped
primary adapter in every field except the update strategy, which is the
`PrepareForUpdaterStrategy` wrapping (override installed) of the primary
adapter's previous update strategy — in particular the `storage` field is
the same reference, so both entries share the underlying physical
store. -/
theorem c8_status_entry {π σ : Type} (gr : GroupResource)
    (store : StorageEntry π σ) (hasStatus : Bool) :
    (mapLookup (resourceStorageMap gr store hasStatus) gr.resource =
      some store) ∧
    (hasStatus = false →
      mapLookup (resourceStorageMap gr store hasStatus)
        (gr.resource ++ "/status") = none) ∧
    (hasStatus = true →
      ∃ st : RegistryStore π σ,
        mapLookup (resourceStorageMap gr store hasStatus)
          (gr.resource ++ "/status") = some (.plain st) ∧
        st.storage = (Unwrap store).storage ∧
        st.newFunc = (Unwrap store).newFunc ∧
        st.newListFunc = (Unwrap store).newListFunc ∧
        st.predicateFunc = (Unwrap store).predicateFunc ∧
        st.defaultQualifiedResource = (Unwrap store).defaultQualifiedResource ∧
        st.singularQualifiedResource =
          (Unwrap store).singularQualifiedResource ∧
        st.tableConvertor = (Unwrap store).tableConvertor ∧
        st.createStrategy = (Unwrap store).createStrategy ∧
        st.deleteStrategy = (Unwrap store).deleteStrategy ∧
        st.updateStrategy =
          .prepareForUpdaterWrap (Unwrap store).updateStrategy true) := by
  have hne : gr.resource ≠ gr.resource ++ "/status" :=
    ne_append_status gr.resource
  have hfalse : resourceStorageMap gr store false =
      mapWrite [] gr.resource store := rfl
  have htrue : resourceStorageMap gr store true =
      mapWrite (mapWrite [] gr.resource store) (gr.resource ++ "/status")
        (.plain { Unwrap store with
          updateStrategy :=
            .prepareForUpdaterWrap (Unwrap store).updateStrategy true }) := rfl
  refine ⟨?_, ?_, ?_⟩
  · cases hasStatus with
    | false => rw [hfalse, mapLookup_mapWrite, if_pos rfl]
    | true =>
        rw [htrue, mapLookup_mapWrite, if_neg hne, mapLookup_mapWrite,
          if_pos rfl]
  · intro h
    subst h
    rw [hfalse, mapLookup_mapWrite, if_neg (fun hc => hne hc.symm),
      mapLookup_nil]
  · intro h
    subst h
    refine ⟨{ Unwrap store with
      updateStrategy :=
        .prepareForUpdaterWrap (Unwrap store).updateStrategy true }, ?_,
      rfl, rfl, rfl, rfl, rfl, rfl, rfl, rfl, rfl, rfl⟩
    rw [htrue, mapLookup_mapWrite, if_pos rfl]

/-- Witness for C8 at a concrete short-names-wrapped store for resource
"bars": without the status capability no "bars/status" entry exists; with
it, the primary entry is the store itself. -/
theorem c8_witness :
    mapLookup
      (resourceStorageMap ⟨"example.com", "bars"⟩
        (StorageEntry.withShortNames
          (⟨"newBar", "newBarList", 3, ⟨"example.com", "bars"⟩,
            ⟨"example.com", "bar"⟩, 4, 5, UpdStrat.base 6, 7, 42⟩ :
            RegistryStore Nat Nat) ["br"]) false)
      ("bars" ++ "/status") = none ∧
    mapLookup
      (resourceStorageMap ⟨"example.com", "bars"⟩
        (StorageEntry.withShortNames
          (⟨"newBar", "newBarList", 3, ⟨"example.com", "bars"⟩,
            ⟨"example.com", "bar"⟩, 4, 5, UpdStrat.base 6, 7, 42⟩ :
            RegistryStore Nat Nat) ["br"]) true)
      "bars" =
      some (StorageEntry.withShortNames
        (⟨"newBar", "newBarList", 3, ⟨"example.com", "bars"⟩,
          ⟨"example.com", "bar"⟩, 4, 5, UpdStrat.base 6, 7, 42⟩ :
          RegistryStore Nat Nat) ["br"]) :=
  ⟨(c8_status_entry ⟨"example.com", "bars"⟩
      (StorageEntry.withShortNames
        (⟨"newBar", "newBarList", 3, ⟨"example.com", "bars"⟩,
          ⟨"example.com", "bar"⟩, 4, 5, UpdStrat.base 6, 7, 42⟩ :
          RegistryStore Nat Nat) ["br"]) false).2.1 rfl,
    (c8_status_entry ⟨"example.com", "bars"⟩
      (StorageEntry.withShortNames
        (⟨"newBar", "newBarList", 3, ⟨"example.com", "bars"⟩,
          ⟨"example.com", "bar"⟩, 4, 5, UpdStrat.base 6, 7, 42⟩ :
          RegistryStore Nat Nat) ["br"]) true).1⟩

/-- C9: `GetAttrs` fails exactly on objects that do not implement the
object-metadata accessor; on a `resource.Object` it returns the object's
labels together with a field set containing `metadata.name` with the
object's name and — in particular for namespaced objects —
`metadata.namespace` with the object's namespace. -/
theorem c9_get_attrs (o : RuntimeObject) :
    ((∃ e, GetAttrs o = .error e) ↔ implementsResourceObject o = false) ∧
    (∀ m ns, o = .resourceObject m ns →
      GetAttrs o = .ok (m.labels, SelectableFields m) ∧
      ("metadata.name", m.name) ∈ SelectableFields m ∧
      (ns = true →
        ("metadata.namespace", m.nspace) ∈ SelectableFields m)) := by
  constructor
  · cases o with
    | resourceObject m ns =>
        simp [GetAttrs, implementsResourceObject]
    | foreign t =>
        simp [GetAttrs, implementsResourceObject]
  · intro m ns h
    subst h
    refine ⟨rfl, ?_, fun _ => ?_⟩
    · simp [SelectableFields, objectMetaFieldsSet]
    · simp [SelectableFields, objectMetaFieldsSet]

/-- Witness for C9 at concrete objects: a namespaced resource object
yields its labels plus name and namespace fields; an object without
metadata is reported as not implementing the accessor. -/
theorem c9_witness :
    GetAttrs (.resourceObject ⟨"myname", "myns", [("foo", "bar")]⟩ true) =
      .ok ([("foo", "bar")],
        [("metadata.name", "myname"), ("metadata.namespace", "myns")]) ∧
    ("metadata.namespace", "myns") ∈
      SelectableFields ⟨"myname", "myns", [("foo", "bar")]⟩ ∧
    implementsResourceObject (.foreign "int") = false :=
  ⟨((c9_get_attrs
      (.resourceObject ⟨"myname", "myns", [("foo", "bar")]⟩ true)).2
      ⟨"myname", "myns", [("foo", "bar")]⟩ true rfl).1,
    ((c9_get_attrs
      (.resourceObject ⟨"myname", "myns", [("foo", "bar")]⟩ true)).2
      ⟨"myname", "myns", [("foo", "bar")]⟩ true rfl).2.2 rfl,
    (c9_get_attrs (.foreign "int")).1.1
      ⟨"given object of type int does not have metadata", rfl⟩⟩

end ApiserverKit
